import Mathlib

/-!
Verification development for the streaming-chat orchestration core of the
Orchid219 browser client.  The definitions below are a shallow embedding of
the TypeScript source: strings are modelled as `List Char`, the JS helpers
`includes` / `replace` / `split` are modelled by first-occurrence scanning
functions, and the React component state is modelled as an explicit record
with the event handlers as state-transition functions.
-/

/-- `startsWithL pat s` models JS `s.startsWith(pat)` on `List Char`. -/
def startsWithL : List Char → List Char → Bool
  | [], _ => true
  | _ :: _, [] => false
  | c :: cs, d :: ds => c == d && startsWithL cs ds

/-- Scan for the first occurrence of `pat` in `s`; return the text before it
and the text after it.  This is the common core of JS `includes`,
`replace(pat, "")` and `split(pat)` restricted to the parts the source uses. -/
def splitFirst (pat : List Char) (s : List Char) : Option (List Char × List Char) :=
  if startsWithL pat s then some ([], s.drop pat.length)
  else
    match s with
    | [] => none
    | c :: rest => (splitFirst pat rest).map (fun p => (c :: p.1, p.2))

/-- JS `s.includes(pat)`. -/
def includesL (pat s : List Char) : Bool := (splitFirst pat s).isSome

/-- JS `s.replace(pat, "")`: delete the first occurrence of `pat`. -/
def replaceFirstL (pat s : List Char) : List Char :=
  match splitFirst pat s with
  | some p => p.1 ++ p.2
  | none => s

/-- JS `s.split(pat)[0]`: the text before the first occurrence of `pat`
(all of `s` when `pat` does not occur). -/
def firstSegment (pat s : List Char) : List Char :=
  match splitFirst pat s with
  | some p => p.1
  | none => s

/-- `pat` occurs in `s` at position `i`. -/
def occursAt (pat s : List Char) (i : Nat) : Prop :=
  startsWithL pat (s.drop i) = true

instance (pat s : List Char) (i : Nat) : Decidable (occursAt pat s i) := by
  unfold occursAt; infer_instance

/-- `i` is the position of the first occurrence of `pat` in `s`. -/
def firstOccAt (pat s : List Char) (i : Nat) : Prop :=
  occursAt pat s i ∧ ∀ k, k < i → ¬ occursAt pat s k

instance (pat s : List Char) (i : Nat) : Decidable (firstOccAt pat s i) := by
  unfold firstOccAt; infer_instance

def openTagL : List Char := "<think>".data

def closeTagL : List Char := "</think>".data

/-- The reasoning splitter executed on every content delta for the
reasoning-capable agent, from `generateResponse` (part_000 lines 326-342)
and `handleChatSubmit` (part_002 lines 470-483), as a pure function of the
accumulated raw text (the source's `reasoning` variable starts at `""` and,
because the raw buffer grows monotonically, its value is always the one this
function computes).  Returns `(reasoning, finalContent)`. -/
def thinkSplit (raw : List Char) : List Char × List Char :=
  if includesL openTagL raw then
    match splitFirst closeTagL raw with
    | some p => (replaceFirstL openTagL p.1, firstSegment closeTagL p.2)
    | none => (replaceFirstL openTagL raw, [])
  else ([], raw)

/- ### SSE stream decoding -/

def lbrace : Char := Char.ofNat 123

def rbrace : Char := Char.ofNat 125

def dquote : Char := Char.ofNat 34

/-- Parse the body of a JSON string literal after the opening quote;
return the content and the rest of the input. -/
def parseStrBody : List Char → Option (List Char × List Char)
  | [] => none
  | c :: rest =>
      if c = dquote then some ([], rest)
      else (parseStrBody rest).map (fun p => (c :: p.1, p.2))

/-- Parse a JSON string literal. -/
def parseStrLit : List Char → Option (List Char × List Char)
  | [] => none
  | c :: rest => if c = dquote then parseStrBody rest else none

/-- Parse one `"key":"value"` pair. -/
def parsePair (s : List Char) : Option ((List Char × List Char) × List Char) :=
  match parseStrLit s with
  | none => none
  | some (k, r1) =>
      match r1 with
      | [] => none
      | c :: r2 =>
          if c = ':' then
            match parseStrLit r2 with
            | some (v, r3) => some ((k, v), r3)
            | none => none
          else none

/-- Parse a comma-separated sequence of pairs (fuel-indexed). -/
def parsePairsAux : Nat → List Char → Option (List (List Char × List Char) × List Char)
  | 0, _ => none
  | fuel + 1, s =>
      match parsePair s with
      | none => none
      | some (kv, r) =>
          match r with
          | c :: r2 =>
              if c = ',' then (parsePairsAux fuel r2).map (fun p => (kv :: p.1, p.2))
              else some ([kv], r)
          | [] => some ([kv], [])

/-- Models the platform `JSON.parse` on the subset of payloads the backend
emits (flat objects of string-valued fields, no escape sequences, no
whitespace): returns the field list, or `none` where `JSON.parse` throws. -/
def jsonParseObj (s : List Char) : Option (List (List Char × List Char)) :=
  match s with
  | [] => none
  | c :: rest =>
      if c = lbrace then
        match rest with
        | [] => none
        | d :: r2 =>
            if d = rbrace ∧ r2 = [] then some []
            else
              match parsePairsAux (rest.length + 1) rest with
              | some (kvs, r3) =>
                  match r3 with
                  | [] => none
                  | e :: r4 => if e = rbrace ∧ r4 = [] then some kvs else none
              | none => none
      else none

/-- JS `parsed.field` on the parsed object. -/
def lookupField (obj : List (List Char × List Char)) (key : List Char) : Option (List Char) :=
  match obj.find? (fun kv => kv.1 == key) with
  | some kv => some kv.2
  | none => none

def dataHeader : List Char := "data: ".data

def doneTagL : List Char := "[DONE]".data

/-- One pass of the per-line logic of the stream read loops
(part_000 lines 317-353, part_001 lines 167-183, part_002): keep only
`data: `-prefixed lines, drop the `[DONE]` sentinel, parse the JSON remainder
(a failure is swallowed), and emit the delta carried by `field`
(`content` for the chat surfaces, `text` for translation); JS truthiness
makes an empty-string delta a no-op. -/
def decodeLine (field line : List Char) : Option (List Char) :=
  if startsWithL dataHeader line then
    let d := line.drop 6
    if d = doneTagL then none
    else
      match jsonParseObj d with
      | some obj =>
          match lookupField obj field with
          | some v => if v = [] then none else some v
          | none => none
      | none => none
  else none

/-- JS `chunk.split("\n")`. -/
def splitOnNl : List Char → List (List Char)
  | [] => [[]]
  | c :: rest =>
      if c = '\n' then [] :: splitOnNl rest
      else
        match splitOnNl rest with
        | [] => [[c]]
        | l :: ls => (c :: l) :: ls

/-- The deltas extracted from one received chunk: the source splits each
chunk on newlines in isolation (no partial line is buffered across chunks)
and runs the per-line logic on every piece. -/
def decodeChunk (field chunk : List Char) : List (List Char) :=
  (splitOnNl chunk).filterMap (decodeLine field)

/-- The sequence of deltas extracted by the read loop from a list of chunks. -/
def decodeChunks (field : List Char) (chunks : List (List Char)) : List (List Char) :=
  (chunks.map (decodeChunk field)).flatten

def contentKey : List Char := "content".data

/- ### The debate interface (part_000) as a state machine -/

inductive AgentRole
  | deepqwen
  | exaone
deriving DecidableEq

inductive TurnState
  | idle
  | deepqwen_thinking
  | waiting_for_exaone
  | exaone_thinking
  | waiting_for_deepqwen
deriving DecidableEq

/-- One transcript entry of the debate interface (`Message` in part_000). -/
structure DMessage where
  role : AgentRole
  content : List Char
  thinking : Option (List Char)
deriving DecidableEq

/-- The component state of `AiDebateInterface` that the claims concern. -/
structure DebateState where
  isAuto : Bool
  topic : List Char
  messages : List DMessage
  turnState : TurnState
  error : Option (List Char)
deriving DecidableEq

/-- How one in-flight stream ends: clean end-of-stream, a thrown error with
its message (non-ok response, missing reader, or broken read), or an abort
from the cancellation token. -/
inductive StreamOutcome
  | success
  | failure (msg : List Char)
  | aborted
deriving DecidableEq

/-- The empty placeholder appended when a generation request is issued
(part_000 line 283): only the reasoning-capable agent gets a `thinking`
field. -/
def placeholderMsg (r : AgentRole) : DMessage :=
  { role := r, content := [], thinking := if r = .deepqwen then some [] else none }

/-- Mutate the last transcript entry (the source's
`newMsgs[newMsgs.length - 1]` update). -/
def updateLast : List DMessage → (DMessage → DMessage) → List DMessage
  | [], _ => []
  | [m], f => [f m]
  | m :: rest, f => m :: updateLast rest f

/-- Apply one decoded content delta (part_000 lines 324-350): extend the raw
buffer, re-derive `(reasoning, final)` — through the think-splitter for the
reasoning-capable agent, identically otherwise — and republish the in-flight
message. -/
def applyDelta (r : AgentRole) (st : List Char × List DMessage) (delta : List Char) :
    List Char × List DMessage :=
  let raw := st.1 ++ delta
  if r = .deepqwen then
    let rf := thinkSplit raw
    (raw, updateLast st.2 (fun m => { m with content := rf.2, thinking := some rf.1 }))
  else
    (raw, updateLast st.2 (fun m => { m with content := raw }))

/-- Run the read loop of `generateResponse` over the received chunks,
starting from an empty raw buffer. -/
def runStream (r : AgentRole) (chunks : List (List Char)) (msgs : List DMessage) :
    List DMessage :=
  ((decodeChunks contentKey chunks).foldl (applyDelta r) ([], msgs)).2

def opponentWaiting : AgentRole → TurnState
  | .deepqwen => .waiting_for_exaone
  | .exaone => .waiting_for_deepqwen

/-- `generateResponse` (part_000 lines 279-371): append the placeholder,
stream the received chunks into the transcript, then either report success
(flipping the turn state to the opposite waiting state), fail (set the error,
force `idle`, disable autoplay), or be aborted (the catch ignores
`AbortError`: no state change beyond the streamed content). -/
def generateResponse (r : AgentRole) (chunks : List (List Char)) (outcome : StreamOutcome)
    (s : DebateState) : DebateState :=
  let msgs := runStream r chunks (s.messages ++ [placeholderMsg r])
  match outcome with
  | .success => { s with messages := msgs, turnState := opponentWaiting r }
  | .failure m =>
      { s with messages := msgs, error := some m, turnState := .idle, isAuto := false }
  | .aborted => { s with messages := msgs }

def thinkingState : AgentRole → TurnState
  | .deepqwen => .deepqwen_thinking
  | .exaone => .exaone_thinking

/-- JS whitespace test used to model `topic.trim()` emptiness (ASCII range). -/
def jsSpace (c : Char) : Bool :=
  c == ' ' || c == '\n' || c == '\t' || c == '\r'

/-- `!topic.trim()`: the topic is empty or all whitespace. -/
def jsTrimEmpty (s : List Char) : Bool := s.all jsSpace

def failSessionMsg : List Char := "Failed to start debate session".data

/-- The synchronous head of `handleStartDebate` after session creation
succeeded (part_000 lines 150-152): clear the transcript, enter
`deepqwen_thinking`, clear the error. -/
def startDebateBegin (s : DebateState) : DebateState :=
  { s with messages := [], turnState := .deepqwen_thinking, error := none }

/-- `handleStartDebate` (part_000 lines 131-186): guard on a non-blank topic,
create the session, then run agent A's opening generation.  A session-creation
failure only sets the error. -/
def handleStartDebate (sessionOk : Bool) (chunks : List (List Char))
    (outcome : StreamOutcome) (s : DebateState) : DebateState :=
  if jsTrimEmpty s.topic then s
  else if sessionOk then generateResponse .deepqwen chunks outcome (startDebateBegin s)
  else { s with error := some failSessionMsg }

/-- `handleReplyExaone` / `handleReplyDeepQwen` (part_000 lines 188-276)
as far as state transitions go: guard on an existing session, enter the
agent's thinking state, then run its generation. -/
def handleReply (r : AgentRole) (hasSession : Bool) (chunks : List (List Char))
    (outcome : StreamOutcome) (s : DebateState) : DebateState :=
  if hasSession then generateResponse r chunks outcome { s with turnState := thinkingState r }
  else s

/-- `handleStop` (part_000 lines 373-381): abort the stream (its catch keeps
all state), disable autoplay, and map each thinking state to its waiting
state, leaving any other state unchanged. -/
def handleStop (s : DebateState) : DebateState :=
  { s with
    isAuto := false,
    turnState :=
      match s.turnState with
      | .deepqwen_thinking => .waiting_for_exaone
      | .exaone_thinking => .waiting_for_deepqwen
      | t => t }

/- ### The autoplay scheduler (part_000 lines 68-84) -/

def autoDelay : Nat := 2000

/-- Which agent a waiting state is waiting for. -/
def waitTarget : TurnState → Option AgentRole
  | .waiting_for_exaone => some .exaone
  | .waiting_for_deepqwen => some .deepqwen
  | _ => none

/-- The guard of the auto-debate effect: a continuation is scheduled exactly
when autoplay is on and the turn state is a waiting state. -/
def autoplayScheduled (s : DebateState) : Option AgentRole :=
  if s.isAuto then waitTarget s.turnState else none

/-- The component state paired with the pending `setTimeout` timer
(target agent and remaining milliseconds). -/
structure SysState where
  app : DebateState
  timer : Option (AgentRole × Nat)

/-- Run the auto-debate effect: the cleanup clears any pending timer and,
per `autoplayScheduled`, a fresh 2000 ms timer is installed.  The effect
re-runs whenever its dependencies (`turnState`, `isAuto`, `messages`)
change. -/
def applyEffect (sys : SysState) : SysState :=
  { sys with timer := (autoplayScheduled sys.app).map (fun r => (r, autoDelay)) }

/-- Any state change re-renders and re-runs the effect (clearing the old
timer). -/
def stateChange (f : DebateState → DebateState) (sys : SysState) : SysState :=
  applyEffect { sys with app := f sys.app }

/-- Let `d` milliseconds pass with no intervening event: a pending timer
fires (invoking the scheduled reply handler, itself a state change) exactly
when its delay has fully elapsed; otherwise it keeps counting down. -/
def elapse (runFire : AgentRole → DebateState → DebateState) (d : Nat) (sys : SysState) :
    SysState :=
  match sys.timer with
  | some (r, rem) =>
      if rem ≤ d then stateChange (runFire r) { sys with timer := none }
      else { sys with timer := some (r, rem - d) }
  | none => sys

/- ### Reply payload construction (part_000 lines 194-233 and 242-275) -/

def systemRole : List Char := "system".data

def userRole : List Char := "user".data

def assistantRole : List Char := "assistant".data

/-- One outbound protocol message. -/
structure ChatMsg where
  role : List Char
  content : List Char
deriving DecidableEq

def opponentOf : AgentRole → AgentRole
  | .deepqwen => .exaone
  | .exaone => .deepqwen

/-- Payload built by `handleReplyExaone` / `handleReplyDeepQwen`: the system
message, the transcript remapped so that the speaker's own turns carry the
`assistant` role and the opponent's carry `user`, and the trailing
instruction as a `user` message. -/
def replyPayload (speaker : AgentRole) (sys instr : List Char) (msgs : List DMessage) :
    List ChatMsg :=
  ⟨systemRole, sys⟩ ::
    (msgs.map (fun m =>
      ⟨if m.role = speaker then assistantRole else userRole, m.content⟩) ++
      [⟨userRole, instr⟩])

/- ### Error recovery of the single-agent chat handlers (part_002) -/

/-- `handleExaoneSubmit`'s catch (part_002 line 682): on a non-abort error
the last transcript entry is removed unconditionally (`prev.slice(0, -1)`). -/
def exaoneErrorRecovery (msgs : List ChatMsg) : List ChatMsg := msgs.dropLast

/-- `handleLlamaSubmit`'s catch (part_002 lines 587-593): the trailing entry
is removed only when it is an assistant message with falsy (empty) content;
otherwise the transcript is kept.  (The source reads `prev[prev.length - 1]`,
defined only for a non-empty transcript, which the handler guarantees.) -/
def llamaErrorRecovery (msgs : List ChatMsg) : List ChatMsg :=
  match msgs.getLast? with
  | some last =>
      if last.role = assistantRole ∧ last.content = [] then msgs.dropLast else msgs
  | none => msgs

/- ### Concrete sample data used to instantiate the theorems -/

/-- The well-formed SSE line from the spec's boundary-splitting property. -/
def sseLine : List Char := "data: \x7b\"content\":\"ab\"\x7d\n".data

/-- A debate surface at rest, with a topic typed in. -/
def debateIdle : DebateState :=
  { isAuto := false, topic := "topic".data, messages := [],
    turnState := .idle, error := none }

/-- A debate surface waiting for agent B with autoplay enabled. -/
def debateWaiting : DebateState :=
  { isAuto := true, topic := "topic".data, messages := [],
    turnState := .waiting_for_exaone, error := none }

/-- A debate surface with agent A mid-generation. -/
def debateThinking : DebateState :=
  { isAuto := true, topic := "topic".data, messages := [],
    turnState := .deepqwen_thinking, error := none }

/-- A two-turn debate transcript. -/
def msgsSample : List DMessage :=
  [{ role := .deepqwen, content := "a".data, thinking := none },
   { role := .exaone, content := "b".data, thinking := none }]

section Scratch

example : thinkSplit "x<think>r</think>f".data = ("xr".data, "f".data) := by decide

example : sseLine.length = 23 := by decide

example : thinkSplit "<think>a</think>b</think>c".data = ("a".data, "b".data) := by decide

example : thinkSplit "abc".data = ([], "abc".data) := by decide

example : thinkSplit "<think>a".data = ("a".data, []) := by decide

example :
    jsonParseObj "\x7b\"content\":\"ab\"\x7d".data =
      some [("content".data, "ab".data)] := by decide

example : jsonParseObj "\x7b\"co".data = none := by decide

example :
    decodeChunks contentKey ["data: \x7b\"content\":\"ab\"\x7d\n".data] = ["ab".data] := by
  decide

example :
    decodeChunks contentKey ["dat".data, "a: \x7b\"content\":\"ab\"\x7d\n".data] = [] := by
  decide

end Scratch

/- ### Scanning lemmas -/

theorem startsWithL_append_self (pat t : List Char) :
    startsWithL pat (pat ++ t) = true := by
  induction pat with
  | nil => rfl
  | cons c cs ih => simp [startsWithL, ih]

theorem startsWithL_of_take {pat l : List Char} {m : Nat}
    (h : startsWithL pat (l.take m) = true) : startsWithL pat l = true := by
  induction pat generalizing l m with
  | nil => rfl
  | cons c cs ih =>
    cases l with
    | nil => cases m <;> simp [startsWithL] at h
    | cons d ds =>
      cases m with
      | zero => simp [startsWithL] at h
      | succ m' =>
        simp only [List.take, startsWithL, Bool.and_eq_true] at h ⊢
        exact ⟨h.1, ih h.2⟩

theorem startsWithL_take {pat l : List Char} {m : Nat}
    (h : startsWithL pat l = true) (hm : pat.length ≤ m) :
    startsWithL pat (l.take m) = true := by
  induction pat generalizing l m with
  | nil => rfl
  | cons c cs ih =>
    cases l with
    | nil => simp [startsWithL] at h
    | cons d ds =>
      cases m with
      | zero => simp at hm
      | succ m' =>
        simp only [List.take, startsWithL, Bool.and_eq_true] at h ⊢
        exact ⟨h.1, ih h.2 (by simpa using hm)⟩

theorem splitFirst_of_firstOccAt {pat s : List Char} {i : Nat}
    (h : firstOccAt pat s i) :
    splitFirst pat s = some (s.take i, s.drop (i + pat.length)) := by
  induction s generalizing i with
  | nil =>
    obtain ⟨h1, h2⟩ := h
    have hpat : pat = [] := by
      cases pat with
      | nil => rfl
      | cons c cs => simp [occursAt, startsWithL] at h1
    have hi : i = 0 := by
      by_contra hne
      exact h2 0 (Nat.pos_of_ne_zero hne) (by simp [occursAt, hpat, startsWithL])
    subst hpat hi
    rfl
  | cons c rest ih =>
    obtain ⟨h1, h2⟩ := h
    cases i with
    | zero =>
      have : startsWithL pat (c :: rest) = true := h1
      rw [splitFirst, if_pos this]
      simp
    | succ k =>
      have hnot : startsWithL pat (c :: rest) = false := by
        have := h2 0 (Nat.succ_pos k)
        simpa [occursAt] using this
      have hrest : firstOccAt pat rest k := by
        refine ⟨h1, fun m hm hocc => ?_⟩
        exact h2 (m + 1) (by omega) hocc
      rw [splitFirst, if_neg (by simp [hnot])]
      rw [ih hrest]
      have hadd : k + 1 + pat.length = (k + pat.length) + 1 := by omega
      simp only [Option.map_some', hadd, List.take_succ_cons, List.drop_succ_cons]

theorem splitFirst_isSome_of_occursAt {pat s : List Char} {i : Nat}
    (h : occursAt pat s i) : (splitFirst pat s).isSome = true := by
  induction s generalizing i with
  | nil =>
    have hpat : pat = [] := by
      cases pat with
      | nil => rfl
      | cons c cs => simp [occursAt, startsWithL] at h
    subst hpat
    rfl
  | cons c rest ih =>
    by_cases hs : startsWithL pat (c :: rest) = true
    · rw [splitFirst, if_pos hs]; rfl
    · cases i with
      | zero => exact absurd h hs
      | succ k =>
        rw [splitFirst, if_neg hs]
        have : occursAt pat rest k := h
        simpa using ih this

theorem exists_occursAt_of_splitFirst_isSome {pat s : List Char}
    (h : (splitFirst pat s).isSome = true) : ∃ i, occursAt pat s i := by
  induction s with
  | nil =>
    rw [splitFirst] at h
    by_cases hs : startsWithL pat ([] : List Char) = true
    · exact ⟨0, hs⟩
    · rw [if_neg hs] at h; simp at h
  | cons c rest ih =>
    by_cases hs : startsWithL pat (c :: rest) = true
    · exact ⟨0, hs⟩
    · rw [splitFirst, if_neg hs] at h
      simp only [Option.isSome_map'] at h
      obtain ⟨k, hk⟩ := ih h
      exact ⟨k + 1, hk⟩

theorem splitFirst_eq_none_of_not_occurs {pat s : List Char}
    (h : ∀ k, ¬ occursAt pat s k) : splitFirst pat s = none := by
  cases hsp : splitFirst pat s with
  | none => rfl
  | some p =>
    obtain ⟨k, hk⟩ := @exists_occursAt_of_splitFirst_isSome pat s (by rw [hsp]; rfl)
    exact absurd hk (h k)

theorem not_occursAt_of_splitFirst_eq_none {pat s : List Char}
    (h : splitFirst pat s = none) : ∀ k, ¬ occursAt pat s k := by
  intro k hk
  have := splitFirst_isSome_of_occursAt hk
  rw [h] at this
  simp at this

theorem replaceFirstL_of_firstOccAt {pat s : List Char} {i : Nat}
    (h : firstOccAt pat s i) :
    replaceFirstL pat s = s.take i ++ s.drop (i + pat.length) := by
  rw [replaceFirstL, splitFirst_of_firstOccAt h]

/- ### Stream-decoding lemmas -/

theorem splitOnNl_append_cons {a : List Char} (b : List Char) (ha : '\n' ∉ a) :
    splitOnNl (a ++ '\n' :: b) = a :: splitOnNl b := by
  induction a with
  | nil => simp [splitOnNl]
  | cons c cs ih =>
    have hc : ¬ (c = '\n') := fun h => ha (by simp [h])
    have ih' := ih (fun h => ha (List.mem_cons_of_mem _ h))
    rw [List.cons_append, splitOnNl, if_neg hc, ih']

theorem decodeChunks_append (field : List Char) (xs ys : List (List Char)) :
    decodeChunks field (xs ++ ys) = decodeChunks field xs ++ decodeChunks field ys := by
  simp [decodeChunks]

/- ### Transcript-shape lemmas -/

theorem updateLast_map_role (msgs : List DMessage) (f : DMessage → DMessage)
    (hf : ∀ m, (f m).role = m.role) :
    (updateLast msgs f).map DMessage.role = msgs.map DMessage.role := by
  induction msgs with
  | nil => rfl
  | cons m rest ih =>
    cases rest with
    | nil => simp [updateLast, hf]
    | cons m2 r2 =>
      simp only [updateLast, List.map_cons]
      rw [ih]
      simp

theorem foldl_applyDelta_map_role (r : AgentRole) (deltas : List (List Char)) :
    ∀ (raw : List Char) (msgs : List DMessage),
      ((deltas.foldl (applyDelta r) (raw, msgs)).2).map DMessage.role =
        msgs.map DMessage.role := by
  induction deltas with
  | nil => intro raw msgs; rfl
  | cons d ds ih =>
    intro raw msgs
    simp only [List.foldl_cons]
    rw [applyDelta]
    by_cases hr : r = .deepqwen
    · simp only [if_pos hr, ih]
      exact updateLast_map_role _ _ (fun m => rfl)
    · simp only [if_neg hr, ih]
      exact updateLast_map_role _ _ (fun m => rfl)

theorem runStream_map_role (r : AgentRole) (chunks : List (List Char))
    (msgs : List DMessage) :
    (runStream r chunks msgs).map DMessage.role = msgs.map DMessage.role := by
  rw [runStream]
  exact foldl_applyDelta_map_role r _ [] msgs

theorem opponentOf_iff_ne (a b : AgentRole) : a = opponentOf b ↔ a ≠ b := by
  cases a <;> cases b <;> decide

/- ### Claim C1 -/

/-- Claim C1 fails on the code at `T = "x<think>r</think>f"`, whose first
`<think>` is at index 1 and first `</think>` at index 9: the claim demands
`reasoning = T[8:9] = "r"` (text before `<think>` discarded) and
`final = T[17:] = "f"`, but the splitter keeps the prefix `"x"` inside
`reasoning`. -/
theorem C1_counterexample :
    firstOccAt openTagL ("x<think>r</think>f".data) 1 ∧
    firstOccAt closeTagL ("x<think>r</think>f".data) 9 ∧
    thinkSplit ("x<think>r</think>f".data) ≠
      ((("x<think>r</think>f".data).take 9).drop 8,
        ("x<think>r</think>f".data).drop 17) ∧
    thinkSplit ("x<think>r</think>f".data) = ("xr".data, "f".data) := by
  decide

/-- Claim C1 (amended): for accumulated raw text whose first `<think>` is at
index `i` and first `</think>` at index `j ≥ i + 7`, the splitter's reasoning
is the text before the first `</think>` with the first `<think>` deleted —
the text before `<think>` is retained, not discarded — and its final text is
the segment of the tail after the first `</think>` that precedes the next
`</think>` occurrence (the entire tail when `</think>` occurs only once). -/
theorem C1_amended_theorem (T : List Char) (i j : Nat)
    (hi : firstOccAt openTagL T i) (hj : firstOccAt closeTagL T j)
    (hij : i + openTagL.length ≤ j) :
    (thinkSplit T).1 = T.take i ++ ((T.take j).drop (i + openTagL.length)) ∧
    ((∀ k, ¬ occursAt closeTagL (T.drop (j + closeTagL.length)) k) →
      (thinkSplit T).2 = T.drop (j + closeTagL.length)) ∧
    (∀ k, firstOccAt closeTagL (T.drop (j + closeTagL.length)) k →
      (thinkSplit T).2 = (T.drop (j + closeTagL.length)).take k) := by
  have hopen : includesL openTagL T = true := splitFirst_isSome_of_occursAt hi.1
  have hsplit : splitFirst closeTagL T =
      some (T.take j, T.drop (j + closeTagL.length)) := by
    have := splitFirst_of_firstOccAt hj
    simpa using this
  have hoccT : firstOccAt openTagL (T.take j) i := by
    constructor
    · show startsWithL openTagL ((T.take j).drop i) = true
      rw [List.drop_take]
      exact startsWithL_take hi.1 (by omega)
    · intro k hk hocc
      refine hi.2 k hk ?_
      show startsWithL openTagL (T.drop k) = true
      have hocc' : startsWithL openTagL (List.take (j - k) (T.drop k)) = true := by
        rw [← List.drop_take]; exact hocc
      exact startsWithL_of_take hocc'
  refine ⟨?_, ?_, ?_⟩
  · simp only [thinkSplit, hopen, if_true, hsplit]
    rw [replaceFirstL_of_firstOccAt hoccT]
    rw [List.take_take, Nat.min_eq_left (by omega)]
  · intro hno
    simp only [thinkSplit, hopen, if_true, hsplit]
    rw [firstSegment, splitFirst_eq_none_of_not_occurs hno]
  · intro k hk
    simp only [thinkSplit, hopen, if_true, hsplit]
    rw [firstSegment, splitFirst_of_firstOccAt hk]

/-- Witness for the amended C1 at `T = "x<think>r</think>f"`, `i = 1`,
`j = 9`. -/
theorem C1_amended_witness :
    firstOccAt openTagL ("x<think>r</think>f".data) 1 ∧
    firstOccAt closeTagL ("x<think>r</think>f".data) 9 ∧
    (thinkSplit ("x<think>r</think>f".data)).1 =
      ("x<think>r</think>f".data).take 1 ++
        ((("x<think>r</think>f".data).take 9).drop (1 + openTagL.length)) := by
  refine ⟨by decide, by decide, ?_⟩
  exact (C1_amended_theorem _ 1 9 (by decide) (by decide) (by decide)).1

/- ### Claim C7 -/

/-- Claim C7: for every accumulated raw text `T` processed by the reasoning
splitter, if `T` contains `<think>` but not `</think>` then the published
final content is empty, and if `T` contains neither marker then reasoning is
empty and final equals `T`. -/
theorem C7_theorem (T : List Char) :
    ((∃ i, occursAt openTagL T i) → (∀ i, ¬ occursAt closeTagL T i) →
      (thinkSplit T).2 = []) ∧
    ((∀ i, ¬ occursAt openTagL T i) → (∀ i, ¬ occursAt closeTagL T i) →
      thinkSplit T = ([], T)) := by
  constructor
  · rintro ⟨i, hi⟩ hno
    have hopen : includesL openTagL T = true := splitFirst_isSome_of_occursAt hi
    have hclose := splitFirst_eq_none_of_not_occurs hno
    simp only [thinkSplit, hopen, if_true, hclose]
  · intro hno _hc
    have h1 : splitFirst openTagL T = none := splitFirst_eq_none_of_not_occurs hno
    have hopen : includesL openTagL T = false := by
      rw [includesL, h1]; rfl
    simp [thinkSplit, hopen]

/-- Witness for C7 at `T = "<think>a"` (open marker only) and `T = "abc"`
(no markers). -/
theorem C7_witness :
    (thinkSplit ("<think>a".data)).2 = [] ∧
    thinkSplit "abc".data = ([], "abc".data) := by
  constructor
  · exact (C7_theorem _).1 ⟨0, by decide⟩
      (not_occursAt_of_splitFirst_eq_none (by decide))
  · exact (C7_theorem _).2
      (not_occursAt_of_splitFirst_eq_none (by decide))
      (not_occursAt_of_splitFirst_eq_none (by decide))

/- ### Claim C2 -/

/-- Claim C2 fails on the code: the read loop splits each chunk on newlines
in isolation and never buffers a partial line, so delivering the well-formed
SSE line split at byte offset 3 (`"dat"` then the remainder) yields no
payload at all, while the whole line yields one. -/
theorem C2_counterexample :
    decodeChunks contentKey [sseLine] = ["ab".data] ∧
    decodeChunks contentKey [sseLine.take 3, sseLine.drop 3] = [] ∧
    decodeChunks contentKey [sseLine.take 3, sseLine.drop 3] ≠
      decodeChunks contentKey [sseLine] := by
  decide

/-- Claim C2 (amended): the 23-byte line `"data: {\"content\":\"ab\"}\n"`
decodes to the single payload `"ab"` when fed whole, and a two-chunk split
reproduces that payload exactly when the split occurs at a line boundary
(offset 0 or 23) or immediately before the trailing newline (offset 22);
splitting anywhere strictly inside the `data: `-prefixed JSON part yields no
payload — the decoder is not invariant to chunk boundary placement. -/
theorem C2_amended_theorem :
    decodeChunks contentKey [sseLine] = ["ab".data] ∧
    (∀ k, k < 24 →
      (decodeChunks contentKey [sseLine.take k, sseLine.drop k] =
          decodeChunks contentKey [sseLine] ↔ (k = 0 ∨ k = 22 ∨ k = 23))) := by
  decide

/-- Witness instantiating the amended C2 at split offset 3. -/
theorem C2_amended_witness :
    decodeChunks contentKey [sseLine.take 3, sseLine.drop 3] ≠
      decodeChunks contentKey [sseLine] := by
  intro hc
  have h := (C2_amended_theorem.2 3 (by omega)).mp hc
  omega

/- ### Claim C3 -/

/-- Claim C3: from `idle`, the debate start operation (non-blank topic,
session creation succeeded) passes through `deepqwen_thinking` and hands the
stream to agent A; whenever A's stream ends successfully the state becomes
exactly `waiting_for_exaone`, and that completion adds only A's own message —
agent B's generation is not started by it. -/
theorem C3_theorem (s : DebateState) (h1 : s.turnState = .idle)
    (h2 : jsTrimEmpty s.topic = false) :
    (startDebateBegin s).turnState = .deepqwen_thinking ∧
    (∀ chunks outcome,
      handleStartDebate true chunks outcome s =
        generateResponse .deepqwen chunks outcome (startDebateBegin s)) ∧
    (∀ (s2 : DebateState) (chunks : List (List Char)),
      (generateResponse .deepqwen chunks .success s2).turnState =
        .waiting_for_exaone ∧
      (generateResponse .deepqwen chunks .success s2).messages.map DMessage.role =
        s2.messages.map DMessage.role ++ [AgentRole.deepqwen]) := by
  refine ⟨rfl, ?_, ?_⟩
  · intro chunks outcome
    simp [handleStartDebate, h2]
  · intro s2 chunks
    refine ⟨rfl, ?_⟩
    show (runStream .deepqwen chunks (s2.messages ++ [placeholderMsg .deepqwen])).map
        DMessage.role = _
    rw [runStream_map_role]
    simp [placeholderMsg]

/-- Witness for C3 at a concrete idle state with topic `"topic"`. -/
theorem C3_witness :
    debateIdle.turnState = .idle ∧ jsTrimEmpty debateIdle.topic = false ∧
    (startDebateBegin debateIdle).turnState = .deepqwen_thinking ∧
    (generateResponse .deepqwen [] .success debateIdle).turnState =
      .waiting_for_exaone := by
  have h := C3_theorem debateIdle (by decide) (by decide)
  exact ⟨by decide, by decide, h.1, (h.2.2 debateIdle []).1⟩

/- ### Claim C4 -/

/-- Claim C4: whenever a debate generation fails with a non-cancellation
error, the error is surfaced, the turn state is forced to `idle`, autoplay is
disabled, and no continuation is scheduled (a new manual trigger is
required). -/
theorem C4_theorem (r : AgentRole) (chunks : List (List Char)) (msg : List Char)
    (s : DebateState) :
    (generateResponse r chunks (.failure msg) s).error = some msg ∧
    (generateResponse r chunks (.failure msg) s).turnState = .idle ∧
    (generateResponse r chunks (.failure msg) s).isAuto = false ∧
    autoplayScheduled (generateResponse r chunks (.failure msg) s) = none := by
  refine ⟨rfl, rfl, rfl, ?_⟩
  simp [autoplayScheduled, generateResponse]

/-- Witness for C4 at the HTTP-failure message the source throws. -/
theorem C4_witness :
    (generateResponse .deepqwen [] (.failure "Generaton failed".data)
      debateIdle).turnState = .idle :=
  (C4_theorem .deepqwen [] "Generaton failed".data debateIdle).2.1

/- ### Claim C5 -/

/-- Claim C5: with autoplay on and the turn state a `waiting_for_*` state,
the effect schedules the opposite agent after exactly 2000 ms: before the
delay elapses nothing fires and the pending timer counts down; at the delay
the scheduled reply runs; and if the state changes to one that no longer
schedules (manual stop or reset) the pending timer is cleared and the
continuation never fires. -/
theorem C5_theorem (s : DebateState) (r : AgentRole)
    (runFire : AgentRole → DebateState → DebateState)
    (h1 : s.isAuto = true) (h2 : waitTarget s.turnState = some r) :
    (applyEffect ⟨s, none⟩).timer = some (r, 2000) ∧
    (∀ d, d < 2000 →
      (elapse runFire d (applyEffect ⟨s, none⟩)).app = s ∧
      (elapse runFire d (applyEffect ⟨s, none⟩)).timer = some (r, 2000 - d)) ∧
    (∀ d, 2000 ≤ d → (elapse runFire d (applyEffect ⟨s, none⟩)).app = runFire r s) ∧
    (∀ f, autoplayScheduled (f s) = none →
      (stateChange f (applyEffect ⟨s, none⟩)).timer = none ∧
      ∀ d, (elapse runFire d (stateChange f (applyEffect ⟨s, none⟩))).app = f s) := by
  have hsched : autoplayScheduled s = some r := by
    rw [autoplayScheduled, h1, if_pos rfl, h2]
  have heff : applyEffect ⟨s, none⟩ = ⟨s, some (r, 2000)⟩ := by
    simp [applyEffect, hsched, autoDelay]
  refine ⟨by rw [heff], ?_, ?_, ?_⟩
  · intro d hd
    have helapse : elapse runFire d (applyEffect ⟨s, none⟩) =
        if 2000 ≤ d then stateChange (runFire r) ⟨s, none⟩
        else ⟨s, some (r, 2000 - d)⟩ := by rw [heff]; rfl
    rw [helapse, if_neg (by omega)]
    exact ⟨rfl, rfl⟩
  · intro d hd
    have helapse : elapse runFire d (applyEffect ⟨s, none⟩) =
        if 2000 ≤ d then stateChange (runFire r) ⟨s, none⟩
        else ⟨s, some (r, 2000 - d)⟩ := by rw [heff]; rfl
    rw [helapse, if_pos hd]
    rfl
  · intro f hf
    have hsc : stateChange f (applyEffect ⟨s, none⟩) = ⟨f s, none⟩ := by
      rw [heff]
      simp [stateChange, applyEffect, hf]
    rw [hsc]
    exact ⟨rfl, fun d => rfl⟩

/-- Witness for C5: autoplay on in `waiting_for_exaone` arms a 2000 ms timer
that has not fired at 1999 ms. -/
theorem C5_witness :
    debateWaiting.isAuto = true ∧
    waitTarget debateWaiting.turnState = some .exaone ∧
    (applyEffect ⟨debateWaiting, none⟩).timer = some (.exaone, 2000) ∧
    (elapse (fun _ st => st) 1999 (applyEffect ⟨debateWaiting, none⟩)).app =
      debateWaiting := by
  have h := C5_theorem debateWaiting .exaone (fun _ st => st) (by decide) (by decide)
  exact ⟨by decide, by decide, h.1, (h.2.1 1999 (by omega)).1⟩

/- ### Claim C6 -/

/-- Claim C6: an explicit stop of an in-flight debate generation is not
surfaced as an error (the error field is unchanged), the content streamed so
far is kept in the transcript unchanged, and the turn state maps each
`*_thinking` state to its corresponding `waiting_for_*` state while any
other state is left as it is. -/
theorem C6_theorem (r : AgentRole) (chunks : List (List Char)) (s : DebateState) :
    (handleStop (generateResponse r chunks .aborted s)).error = s.error ∧
    (handleStop (generateResponse r chunks .aborted s)).messages =
      (generateResponse r chunks .aborted s).messages ∧
    (handleStop (generateResponse r chunks .aborted s)).isAuto = false ∧
    (s.turnState = .deepqwen_thinking →
      (handleStop (generateResponse r chunks .aborted s)).turnState =
        .waiting_for_exaone) ∧
    (s.turnState = .exaone_thinking →
      (handleStop (generateResponse r chunks .aborted s)).turnState =
        .waiting_for_deepqwen) ∧
    (s.turnState ≠ .deepqwen_thinking → s.turnState ≠ .exaone_thinking →
      (handleStop (generateResponse r chunks .aborted s)).turnState =
        s.turnState) := by
  refine ⟨rfl, rfl, rfl, ?_, ?_, ?_⟩
  · intro h
    simp [handleStop, generateResponse, h]
  · intro h
    simp [handleStop, generateResponse, h]
  · intro hd he
    cases hst : s.turnState
    · simp [handleStop, generateResponse, hst]
    · exact absurd hst hd
    · simp [handleStop, generateResponse, hst]
    · exact absurd hst he
    · simp [handleStop, generateResponse, hst]

/-- Witness for C6: stopping agent A mid-generation lands in
`waiting_for_exaone` with no error. -/
theorem C6_witness :
    (handleStop (generateResponse .deepqwen [] .aborted debateThinking)).turnState =
      .waiting_for_exaone ∧
    (handleStop (generateResponse .deepqwen [] .aborted debateThinking)).error =
      none := by
  have h := C6_theorem .deepqwen [] debateThinking
  exact ⟨h.2.2.2.1 (by decide), h.1⟩

/- ### Claim C8 -/

/-- Claim C8: the decoding loop never forwards the sentinel line
`data: [DONE]` as a content payload, and a `data: `-prefixed line whose
remainder is not valid JSON is silently skipped — the deltas of the earlier
chunks and of the lines after it are exactly preserved. -/
theorem C8_theorem (field bad c2 : List Char) (chunks : List (List Char))
    (hnl : '\n' ∉ bad) (hbad : jsonParseObj bad = none) :
    decodeLine field (dataHeader ++ doneTagL) = none ∧
    decodeChunks field (chunks ++ [(dataHeader ++ bad) ++ '\n' :: c2]) =
      decodeChunks field chunks ++ decodeChunk field c2 := by
  constructor
  · rfl
  · rw [decodeChunks_append]
    have hone : decodeChunks field [(dataHeader ++ bad) ++ '\n' :: c2] =
        decodeChunk field ((dataHeader ++ bad) ++ '\n' :: c2) := by
      simp [decodeChunks]
    rw [hone]
    have hnotin : '\n' ∉ dataHeader ++ bad := by
      intro hmem
      rcases List.mem_append.mp hmem with h | h
      · revert h; decide
      · exact hnl h
    rw [decodeChunk, splitOnNl_append_cons _ hnotin, List.filterMap_cons]
    have hskip : decodeLine field (dataHeader ++ bad) = none := by
      have hstart : startsWithL dataHeader (dataHeader ++ bad) = true :=
        startsWithL_append_self _ _
      have hdrop : (dataHeader ++ bad).drop 6 = bad := by
        have : dataHeader.length = 6 := rfl
        rw [← this, List.drop_left]
      by_cases hdone : bad = doneTagL
      · subst hdone; rfl
      · simp [decodeLine, hstart, hdrop, hdone, hbad]
    rw [hskip, decodeChunk]

/-- Witness for C8: a truncated JSON line between healthy chunks is skipped
while the following line still decodes. -/
theorem C8_witness :
    decodeLine "content".data (dataHeader ++ doneTagL) = none ∧
    decodeChunks "content".data
      ([] ++ [(dataHeader ++ "\x7b\"co".data) ++
        '\n' :: "data: \x7b\"content\":\"zz\"\x7d".data]) =
      decodeChunks "content".data [] ++
        decodeChunk "content".data "data: \x7b\"content\":\"zz\"\x7d".data :=
  C8_theorem "content".data "\x7b\"co".data
    "data: \x7b\"content\":\"zz\"\x7d".data [] (by decide) (by decide)

/- ### Claim C9 -/

/-- Claim C9: every reply payload is exactly one system message, then the
conversation history remapped so that the speaking agent's own prior turns
carry the protocol role `assistant` and the opponent's carry `user` — order
and content preserved — then one trailing `user`-role instruction. -/
theorem C9_theorem (speaker : AgentRole) (sys instr : List Char)
    (msgs : List DMessage) :
    (replyPayload speaker sys instr msgs).length = msgs.length + 2 ∧
    (replyPayload speaker sys instr msgs).head? = some ⟨systemRole, sys⟩ ∧
    (replyPayload speaker sys instr msgs).getLast? = some ⟨userRole, instr⟩ ∧
    ∀ i, i < msgs.length →
      ((replyPayload speaker sys instr msgs)[i + 1]?).map ChatMsg.content =
        (msgs[i]?).map DMessage.content ∧
      (((replyPayload speaker sys instr msgs)[i + 1]?).map ChatMsg.role =
          some assistantRole ↔ (msgs[i]?).map DMessage.role = some speaker) ∧
      (((replyPayload speaker sys instr msgs)[i + 1]?).map ChatMsg.role =
          some userRole ↔
        (msgs[i]?).map DMessage.role = some (opponentOf speaker)) := by
  refine ⟨?_, rfl, ?_, ?_⟩
  · simp [replyPayload]
  · rw [replyPayload, ← List.cons_append, List.getLast?_concat]
  · intro i hi
    have hm : msgs[i]? = some msgs[i] := List.getElem?_eq_getElem hi
    have hidx : (replyPayload speaker sys instr msgs)[i + 1]? =
        some ⟨if msgs[i].role = speaker then assistantRole else userRole,
          msgs[i].content⟩ := by
      rw [replyPayload, List.getElem?_cons_succ, List.getElem?_append,
        if_pos (by simpa using hi), List.getElem?_map, hm]
      rfl
    rw [hidx, hm]
    refine ⟨rfl, ?_, ?_⟩
    · by_cases h : msgs[i].role = speaker
      · simp [h]
      · simp only [if_neg h, Option.map_some', Option.some.injEq]
        constructor
        · intro hu
          exact absurd hu (by decide : userRole ≠ assistantRole)
        · intro hs
          exact absurd hs h
    · by_cases h : msgs[i].role = speaker
      · simp only [if_pos h, Option.map_some', Option.some.injEq]
        constructor
        · intro hu
          exact absurd hu (by decide : assistantRole ≠ userRole)
        · intro hop
          have hcontra : speaker = opponentOf speaker := h ▸ hop
          exact absurd rfl ((opponentOf_iff_ne speaker speaker).mp hcontra)
      · simp only [if_neg h, Option.map_some', Option.some.injEq]
        constructor
        · intro _
          exact (opponentOf_iff_ne _ _).mpr h
        · intro _
          trivial

/-- Witness for C9 on a two-turn transcript with ExaOne speaking: DeepQwen's
turn is remapped to `user`, ExaOne's own turn to `assistant`, and the payload
ends with the `user`-role instruction. -/
theorem C9_witness :
    ((replyPayload .exaone "s".data "i".data msgsSample)[1]?).map ChatMsg.role =
      some userRole ∧
    ((replyPayload .exaone "s".data "i".data msgsSample)[2]?).map ChatMsg.role =
      some assistantRole ∧
    (replyPayload .exaone "s".data "i".data msgsSample).getLast? =
      some ⟨userRole, "i".data⟩ := by
  have h := C9_theorem .exaone "s".data "i".data msgsSample
  refine ⟨?_, ?_, h.2.2.1⟩
  · exact ((h.2.2.2 0 (by decide)).2.2).mpr (by decide)
  · exact ((h.2.2.2 1 (by decide)).2.1).mpr (by decide)

/- ### Claim C10 -/

/-- Claim C10: on a non-abort stream error the ExaOne chat handler removes
the last transcript entry unconditionally — even a partially streamed
assistant message — whereas the Llama handler removes its trailing assistant
placeholder only when that placeholder's content is empty, keeping partial
output otherwise. -/
theorem C10_theorem (pre : List ChatMsg) (c : List Char) (hc : c ≠ []) :
    exaoneErrorRecovery (pre ++ [⟨assistantRole, c⟩]) = pre ∧
    llamaErrorRecovery (pre ++ [⟨assistantRole, c⟩]) =
      pre ++ [⟨assistantRole, c⟩] ∧
    exaoneErrorRecovery (pre ++ [⟨assistantRole, []⟩]) = pre ∧
    llamaErrorRecovery (pre ++ [⟨assistantRole, []⟩]) = pre := by
  refine ⟨List.dropLast_concat, ?_, List.dropLast_concat, ?_⟩
  · rw [llamaErrorRecovery, List.getLast?_concat]
    simp [hc]
  · rw [llamaErrorRecovery, List.getLast?_concat]
    simp

/-- Witness for C10 at a one-message transcript holding partial content
`"x"`. -/
theorem C10_witness :
    exaoneErrorRecovery [⟨assistantRole, "x".data⟩] = [] ∧
    llamaErrorRecovery [⟨assistantRole, "x".data⟩] =
      [⟨assistantRole, "x".data⟩] := by
  have h := C10_theorem [] "x".data (by decide)
  exact ⟨h.1, h.2.1⟩
